import Mathlib

/-!
Verification of the pyapp-base scaffold: a shallow embedding of the
configuration manager (app_config.py), the validation helpers
(app_validation.py), the argument parser post-processing and dependency
validation (app_argparser.py), and the logger setup (app_logger.py),
together with proofs of the specified properties.

Python values that flow through these functions (JSON configuration
trees, argparse values) are modelled by the inductive type JVal; Python
dictionaries are association lists with the insertion-order semantics of
CPython dicts (lookup finds the binding, assignment overwrites in place
or appends).  Functions that can raise are modelled in Except PyErr.
-/

/-- A Python/JSON value: None, bool, int, str, list, or dict. -/
inductive JVal where
  | vnull : JVal
  | vbool (b : Bool) : JVal
  | vnum (n : Int) : JVal
  | vstr (s : String) : JVal
  | vlist (xs : List JVal) : JVal
  | vdict (es : List (String × JVal)) : JVal

/-- Entries of a Python dict, in insertion order. -/
abbrev Entries := List (String × JVal)

/-- Python truthiness: None, False, 0, empty string/list/dict are falsy. -/
def truthy : JVal → Bool
  | JVal.vnull => false
  | JVal.vbool b => b
  | JVal.vnum n => n != 0
  | JVal.vstr s => s != ""
  | JVal.vlist xs => !xs.isEmpty
  | JVal.vdict es => !es.isEmpty

/-- Dict lookup: value of the binding for key k, if any. -/
def dlookup {α : Type} (k : String) : List (String × α) → Option α
  | [] => none
  | (k1, v) :: rest => if k1 = k then some v else dlookup k rest

/-- Dict assignment d[k] = v: overwrite the existing binding in place,
or append a new binding at the end (CPython dict semantics). -/
def dinsert {α : Type} (k : String) (v : α) : List (String × α) → List (String × α)
  | [] => [(k, v)]
  | (k1, v1) :: rest => if k1 = k then (k, v) :: rest else (k1, v1) :: dinsert k v rest

/-- AppConfig._merge_configs: result = base.copy(); for each (key, value)
in updates: if key is in result and both result[key] and value are dicts,
result[key] = merge(result[key], value), else result[key] = value. -/
def merge_configs : Entries → Entries → Entries
  | base, [] => base
  | base, (k, JVal.vdict du) :: rest =>
      (match dlookup k base with
       | some (JVal.vdict db) =>
           merge_configs (dinsert k (JVal.vdict (merge_configs db du)) base) rest
       | _ => merge_configs (dinsert k (JVal.vdict du) base) rest)
  | base, (k, v) :: rest => merge_configs (dinsert k v base) rest
termination_by _ u => sizeOf u
decreasing_by all_goals simp_wf <;> omega

/-- Exceptions raised by the embedded code. -/
inductive PyErr where
  | validationError (error_code : String)
  | fileOperationError (error_code : String)
  | attributeError
  | osError
  | otherError (name : String)
  deriving Repr, DecidableEq

/-- Whether a result is a ValidationError carrying the given error code. -/
def raisesValidation {α : Type} (r : Except PyErr α) (code : String) : Bool :=
  match r with
  | Except.error (PyErr.validationError c) => c == code
  | _ => false

/-- The test `min_val is not None and value < min_val` of validate_range. -/
def belowMin (value : Int) : Option Int → Bool
  | some m => decide (value < m)
  | none => false

/-- The test `max_val is not None and value > max_val` of validate_range. -/
def aboveMax (value : Int) : Option Int → Bool
  | some m => decide (m < value)
  | none => false

/-- app_validation.validate_range: raise MIN_VALUE_ERROR if min_val is not
None and value < min_val, then raise MAX_VALUE_ERROR if max_val is not None
and value > max_val, else return. -/
def validate_range (value : Int) (min_val max_val : Option Int) : Except PyErr Unit :=
  if belowMin value min_val then Except.error (PyErr.validationError "MIN_VALUE_ERROR")
  else if aboveMax value max_val then Except.error (PyErr.validationError "MAX_VALUE_ERROR")
  else Except.ok ()

/-- app_validation.validate_mutually_exclusive: pair each supplied value
with a name (auto-generated names of matching length when none are given),
collect the names of the truthy values, and raise MUTUALLY_EXCLUSIVE_ARGS
when more than one name was collected.  Note zip truncates to the shorter
of the two lists. -/
def validate_mutually_exclusive (args_values : List JVal)
    (names : Option (List String)) : Except PyErr Unit :=
  let ns := names.getD ((List.range args_values.length).map (fun i => toString (i + 1)))
  let specified_args := ((args_values.zip ns).filter (fun p => truthy p.1)).map (fun p => p.2)
  if specified_args.length > 1 then
    Except.error (PyErr.validationError "MUTUALLY_EXCLUSIVE_ARGS")
  else Except.ok ()

/-- app_validation.validate_conditional_required: raise
CONDITIONAL_REQUIRED_ERROR when the condition holds but the value is falsy. -/
def validate_conditional_required (condition : Bool) (value : JVal) : Except PyErr Unit :=
  if condition && !(truthy value) then
    Except.error (PyErr.validationError "CONDITIONAL_REQUIRED_ERROR")
  else Except.ok ()

/-- app_validation.validate_file_or_directory_exists: raise PATH_NOT_FOUND
when the path does not exist; the file system is a parameter. -/
def validate_file_or_directory_exists (pathExists : String → Bool)
    (path : String) : Except PyErr Unit :=
  if !(pathExists path) then Except.error (PyErr.fileOperationError "PATH_NOT_FOUND")
  else Except.ok ()

/-- C4: validate_range(v, lo, hi) raises exactly when v < lo (lo supplied)
or v > hi (hi supplied); it returns normally otherwise, a None bound is
unconstrained, and the boundary values v = lo and v = hi pass. -/
theorem validate_range_raises_iff (v : Int) (lo hi : Option Int) :
    ((∃ e, validate_range v lo hi = Except.error e) ↔
      (∃ m, lo = some m ∧ v < m) ∨ (∃ m, hi = some m ∧ m < v))
    ∧ (validate_range v lo hi = Except.ok () ↔
      ¬ ((∃ m, lo = some m ∧ v < m) ∨ (∃ m, hi = some m ∧ m < v)))
    ∧ validate_range v (some v) (some v) = Except.ok () := by
  have hlo : belowMin v lo = true ↔ (∃ m, lo = some m ∧ v < m) := by
    cases lo <;> simp [belowMin]
  have hhi : aboveMax v hi = true ↔ (∃ m, hi = some m ∧ m < v) := by
    cases hi <;> simp [aboveMax]
  have hbnd : validate_range v (some v) (some v) = Except.ok () := by
    simp [validate_range, belowMin, aboveMax]
  by_cases h1 : belowMin v lo = true
  · have hres : validate_range v lo hi
        = Except.error (PyErr.validationError "MIN_VALUE_ERROR") := by
      simp [validate_range, h1]
    rw [hres]
    refine ⟨⟨fun _ => Or.inl (hlo.mp h1), fun _ => ⟨_, rfl⟩⟩,
      ⟨fun hok => absurd hok (by simp), fun h => absurd (Or.inl (hlo.mp h1)) h⟩, hbnd⟩
  · by_cases h2 : aboveMax v hi = true
    · have hres : validate_range v lo hi
          = Except.error (PyErr.validationError "MAX_VALUE_ERROR") := by
        simp [validate_range, h1, h2]
      rw [hres]
      refine ⟨⟨fun _ => Or.inr (hhi.mp h2), fun _ => ⟨_, rfl⟩⟩,
        ⟨fun hok => absurd hok (by simp), fun h => absurd (Or.inr (hhi.mp h2)) h⟩, hbnd⟩
    · have hnot : ¬ ((∃ m, lo = some m ∧ v < m) ∨ (∃ m, hi = some m ∧ m < v)) := by
        rintro (h | h)
        · exact h1 (hlo.mpr h)
        · exact h2 (hhi.mpr h)
      have hres : validate_range v lo hi = Except.ok () := by
        simp [validate_range, h1, h2]
      rw [hres]
      refine ⟨⟨fun ⟨e, he⟩ => absurd he (by simp), fun h => absurd h hnot⟩,
        ⟨fun _ => hnot, fun _ => rfl⟩, hbnd⟩

/-- The number of truthy values among the first (length of the names list)
supplied values; all supplied values when names are omitted. -/
def consideredTruthyCount (vals : List JVal) (names : Option (List String)) : Nat :=
  match names with
  | none => (vals.filter truthy).length
  | some ns => ((vals.take ns.length).filter truthy).length

theorem zip_filter_truthy_length (vals : List JVal) (ns : List String) :
    (((vals.zip ns).filter (fun p => truthy p.1)).map (fun p => p.2)).length
      = ((vals.take ns.length).filter truthy).length := by
  induction vals generalizing ns with
  | nil => simp
  | cons v rest ih =>
      cases ns with
      | nil => simp
      | cons n ns =>
          have ih2 := ih ns
          by_cases h : truthy v = true <;>
            simp only [List.zip_cons_cons, List.take, List.filter, h, List.map,
              List.length_cons, if_true, if_false, Bool.false_eq_true] <;>
            simpa [List.zip] using ih2

/-- C5 (amended): validate_mutually_exclusive raises
MUTUALLY_EXCLUSIVE_ARGS exactly when at least two of the considered values
are truthy, where the considered values are all supplied values when names
are omitted, but only the first (length of names) values when a names list
is supplied, because zip truncates to the shorter list. -/
theorem validate_mutually_exclusive_iff (vals : List JVal) (names : Option (List String)) :
    (raisesValidation (validate_mutually_exclusive vals names) "MUTUALLY_EXCLUSIVE_ARGS" = true
      ↔ 2 ≤ consideredTruthyCount vals names)
    ∧ (validate_mutually_exclusive vals names = Except.ok ()
      ↔ consideredTruthyCount vals names < 2) := by
  have hlen : (((vals.zip ((names.getD
        ((List.range vals.length).map (fun i => toString (i + 1)))))).filter
        (fun p => truthy p.1)).map (fun p => p.2)).length
      = consideredTruthyCount vals names := by
    cases names with
    | none =>
        rw [Option.getD_none, zip_filter_truthy_length]
        simp [consideredTruthyCount]
    | some ns =>
        rw [Option.getD_some, zip_filter_truthy_length]
        simp [consideredTruthyCount]
  by_cases h : 1 < consideredTruthyCount vals names
  · have hres : validate_mutually_exclusive vals names
        = Except.error (PyErr.validationError "MUTUALLY_EXCLUSIVE_ARGS") := by
      simp only [validate_mutually_exclusive, hlen]
      simp [h]
    rw [hres]
    constructor
    · simp only [raisesValidation]
      simp
      omega
    · simp
      omega
  · have hres : validate_mutually_exclusive vals names = Except.ok () := by
      simp only [validate_mutually_exclusive, hlen]
      simp [h]
    rw [hres]
    constructor
    · simp only [raisesValidation]
      simp
      omega
    · simp
      omega

/-- C5 counterexample: two truthy values with a one-element names list pass
validation, although two of the supplied values are truthy. -/
theorem validate_mutually_exclusive_short_names_cex :
    validate_mutually_exclusive [JVal.vbool true, JVal.vbool true] (some ["a"])
      = Except.ok ()
    ∧ 2 ≤ ([JVal.vbool true, JVal.vbool true].filter truthy).length := by
  constructor
  · rfl
  · decide

/-- C6: validate_conditional_required raises CONDITIONAL_REQUIRED_ERROR
exactly when the condition is true and the value is falsy, and never raises
when the condition is false. -/
theorem validate_conditional_required_iff (condition : Bool) (value : JVal) :
    (validate_conditional_required condition value
        = Except.error (PyErr.validationError "CONDITIONAL_REQUIRED_ERROR")
      ↔ condition = true ∧ truthy value = false)
    ∧ (validate_conditional_required condition value = Except.ok ()
      ↔ ¬ (condition = true ∧ truthy value = false))
    ∧ validate_conditional_required false value = Except.ok () := by
  refine ⟨?_, ?_, ?_⟩
  · cases condition <;> cases h : truthy value <;>
      simp [validate_conditional_required, h]
  · cases condition <;> cases h : truthy value <;>
      simp [validate_conditional_required, h]
  · simp [validate_conditional_required]

/-!
Configuration manager (app_config.py).
-/

/-- AppConfig.default_config, translated from the constructor of AppConfig
(APP_NAME = "pyapp-base", APP_VERSION = "0.1.0"). -/
def default_config : Entries :=
  [("app", JVal.vdict
      [("name", JVal.vstr "pyapp-base"),
       ("version", JVal.vstr "0.1.0"),
       ("debug_mode", JVal.vbool false)]),
   ("logging", JVal.vdict
      [("level", JVal.vstr "INFO"),
       ("log_dir", JVal.vstr "logs"),
       ("enable_console", JVal.vbool true),
       ("enable_file", JVal.vbool true)]),
   ("gui", JVal.vdict
      [("window_width", JVal.vnum 800),
       ("window_height", JVal.vnum 600),
       ("theme", JVal.vstr "default")]),
   ("processing", JVal.vdict
      [("max_file_size", JVal.vstr "100MB"),
       ("supported_formats", JVal.vlist
          [JVal.vstr "jpg", JVal.vstr "png", JVal.vstr "gif",
           JVal.vstr "bmp", JVal.vstr "tiff"]),
       ("output_format", JVal.vstr "json")])]

/-- Outcome of the file system and JSON parser during load_config:
the configuration file is missing (and the subsequent save of the defaults
succeeds or fails), or it exists and parses to a value, or opening/parsing
raises. -/
inductive FSOutcome where
  | missing (saveOk : Bool)
  | readsVal (v : JVal)
  | readError

/-- The body of the try-block of AppConfig.load_config: read and merge the
file over the defaults when it exists (json.load may return a non-dict, in
which case updates.items() in _merge_configs raises AttributeError), else
either create it from the defaults (save_config re-raises on failure) or
fall back to the defaults. -/
def load_config_body (create_if_not_exists : Bool) : FSOutcome → Except PyErr Entries
  | FSOutcome.readsVal v =>
      match v with
      | JVal.vdict es => Except.ok (merge_configs default_config es)
      | _ => Except.error PyErr.attributeError
  | FSOutcome.readError => Except.error (PyErr.otherError "JSONDecodeError")
  | FSOutcome.missing saveOk =>
      if create_if_not_exists then
        if saveOk then Except.ok default_config else Except.error PyErr.osError
      else Except.ok default_config

/-- AppConfig.load_config: the try-block body with `except Exception`
returning a copy of the default configuration. -/
def load_config (create_if_not_exists : Bool) (fs : FSOutcome) : Except PyErr Entries :=
  match load_config_body create_if_not_exists fs with
  | Except.ok cfg => Except.ok cfg
  | Except.error _ => Except.ok default_config

/-- C7: load_config never raises: for every file-system outcome it returns
a configuration dictionary, and whenever the loading body fails it returns
the built-in default tree. -/
theorem load_config_never_fails (create_if_not_exists : Bool) (fs : FSOutcome) :
    (∃ cfg, load_config create_if_not_exists fs = Except.ok cfg)
    ∧ (∀ e, load_config_body create_if_not_exists fs = Except.error e →
        load_config create_if_not_exists fs = Except.ok default_config) := by
  constructor
  · cases h : load_config_body create_if_not_exists fs with
    | ok cfg => exact ⟨cfg, by simp [load_config, h]⟩
    | error e => exact ⟨default_config, by simp [load_config, h]⟩
  · intro e he
    simp [load_config, he]

/-- C7 witness: a parse failure yields the default configuration. -/
theorem load_config_never_fails_witness :
    load_config true FSOutcome.readError = Except.ok default_config :=
  (load_config_never_fails true FSOutcome.readError).2
    (PyErr.otherError "JSONDecodeError") rfl

/-- The loop of AppConfig.get: successive subscripts value[key]; a missing
key raises KeyError, subscripting a non-dict with a string key raises
TypeError. -/
def walkKeys : JVal → List String → Except PyErr JVal
  | v, [] => Except.ok v
  | JVal.vdict es, k :: rest =>
      (match dlookup k es with
       | some v => walkKeys v rest
       | none => Except.error (PyErr.otherError "KeyError"))
  | _, _ :: _ => Except.error (PyErr.otherError "TypeError")

/-- The specified meaning of a dot-separated path: successive key lookups,
none when a segment is missing or a non-mapping is reached. -/
def getPath : JVal → List String → Option JVal
  | v, [] => some v
  | JVal.vdict es, k :: rest =>
      (match dlookup k es with
       | some v => getPath v rest
       | none => none)
  | _, _ :: _ => none

/-- AppConfig.get: split the key path on dots, walk the configuration, and
catch KeyError/TypeError by returning the caller-supplied default. -/
def config_get (config : JVal) (key_path : String) (dflt : JVal) : JVal :=
  match walkKeys config (key_path.splitOn ".") with
  | Except.ok v => v
  | Except.error _ => dflt

theorem walkKeys_getPath (keys : List String) : ∀ v : JVal,
    (walkKeys v keys).toOption = getPath v keys := by
  induction keys with
  | nil => intro v; simp [walkKeys, getPath, Except.toOption]
  | cons k rest ih =>
      intro v
      cases v with
      | vdict es =>
          cases h : dlookup k es with
          | some w => simp [walkKeys, getPath, h, ih]
          | none => simp [walkKeys, getPath, h, Except.toOption]
      | vnull => simp [walkKeys, getPath, Except.toOption]
      | vbool b => simp [walkKeys, getPath, Except.toOption]
      | vnum n => simp [walkKeys, getPath, Except.toOption]
      | vstr s => simp [walkKeys, getPath, Except.toOption]
      | vlist xs => simp [walkKeys, getPath, Except.toOption]

/-- C8: AppConfig.get returns the value reached by successive lookups along
the dot-separated path when every segment resolves, and the caller-supplied
default when a segment is missing or a non-mapping is hit; it never raises
(it is a total function into values). -/
theorem config_get_spec (config : JVal) (key_path : String) (dflt : JVal) :
    config_get config key_path dflt
      = (getPath config (key_path.splitOn ".")).getD dflt := by
  rw [← walkKeys_getPath]
  cases h : walkKeys config (key_path.splitOn ".") with
  | ok v => simp [config_get, h, Except.toOption]
  | error e => simp [config_get, h, Except.toOption]

/-!
Logger setup (app_logger.py).
-/

/-- A handler attached to the logger. -/
inductive Handler where
  | console
  | file
  deriving Repr, DecidableEq

/-- Whether creating the rotating file handler (directory creation included)
raises OSError. -/
inductive FileHandlerOutcome where
  | ok
  | osError

/-- AppLogger._setup_logger: attach a console handler when console output is
enabled; when file output is enabled, try to create the rotating file
handler; on OSError either log a warning and continue with the console
handler only (console enabled) or re-raise OSError (console disabled).
Returns the handler list together with whether the warning was logged. -/
def setup_logger (enable_console enable_file : Bool)
    (fileOutcome : FileHandlerOutcome) : Except PyErr (List Handler × Bool) :=
  let handlers := if enable_console then [Handler.console] else []
  if enable_file then
    match fileOutcome with
    | FileHandlerOutcome.ok => Except.ok (handlers ++ [Handler.file], false)
    | FileHandlerOutcome.osError =>
        if enable_console then Except.ok (handlers, true)
        else Except.error PyErr.osError
  else Except.ok (handlers, false)

/-- C9: when file output is enabled and creating the rotating file handler
raises OSError, _setup_logger returns a logger with the console handler
only, after logging a warning, when console output is enabled; when console
output is disabled it raises instead of returning a logger. -/
theorem setup_logger_oserror_fallback :
    setup_logger true true FileHandlerOutcome.osError
      = Except.ok ([Handler.console], true)
    ∧ setup_logger false true FileHandlerOutcome.osError
      = Except.error PyErr.osError := by
  constructor <;> rfl

/-!
Argument parser (app_argparser.py).

AppArgParser._setup_arguments_common and _setup_arguments declare the
destinations config, log_level, log_file, debug, mode, input, output and
format; argparse therefore sets exactly these attributes on the parsed
namespace.  The post-processing and dependency validation additionally
read verbose, quiet, no_console, dry_run and force, which no add_argument
call ever declares.  Attribute presence is modelled with Option: a none
field is an absent attribute, and reading it raises AttributeError.
-/

/-- An argparse namespace: each possible attribute is present (some) or
absent (none). -/
structure ArgNamespace where
  config : Option String
  log_level : Option String
  log_file : Option String
  debug : Option Bool
  mode : Option String
  input : Option (List String)
  output : Option (Option String)
  format : Option String
  verbose : Option Int
  quiet : Option Bool
  no_console : Option Bool
  dry_run : Option Bool
  force : Option Bool

/-- The namespace produced by AppArgParser.parse_args before post-processing:
every declared destination is set (output defaults to None when not given),
and no other attribute exists. -/
def parsed_namespace (cfg log_level log_file : String) (debug : Bool)
    (mode : String) (input : List String) (output : Option String)
    (fmt : String) : ArgNamespace :=
  { config := some cfg
    log_level := some log_level
    log_file := some log_file
    debug := some debug
    mode := some mode
    input := some input
    output := some output
    format := some fmt
    verbose := none
    quiet := none
    no_console := none
    dry_run := none
    force := none }

/-- AppArgParser._post_process_args: set log_level to DEBUG when args.debug,
else to DEBUG when args.verbose >= 2 and to INFO when args.verbose == 1;
when args.quiet, set log_level to ERROR and no_console to True; then resolve
config, output and log_file to absolute paths (resolution is a parameter).
Reading an absent attribute raises AttributeError. -/
def post_process_args (resolve : String → String) (a : ArgNamespace) :
    Except PyErr ArgNamespace :=
  match a.debug with
  | none => Except.error PyErr.attributeError
  | some dbg =>
    let step1 : Except PyErr ArgNamespace :=
      if dbg then Except.ok { a with log_level := some "DEBUG" }
      else
        match a.verbose with
        | none => Except.error PyErr.attributeError
        | some vb =>
          if vb ≥ 2 then Except.ok { a with log_level := some "DEBUG" }
          else if vb = 1 then Except.ok { a with log_level := some "INFO" }
          else Except.ok a
    match step1 with
    | Except.error e => Except.error e
    | Except.ok a1 =>
      match a1.quiet with
      | none => Except.error PyErr.attributeError
      | some q =>
        let a2 := if q then { a1 with log_level := some "ERROR", no_console := some true }
                  else a1
        let a3 := match a2.config with
          | some c => if c ≠ "" then { a2 with config := some (resolve c) } else a2
          | none => a2
        let a4 := match a3.output with
          | some (some o) => if o ≠ "" then { a3 with output := some (some (resolve o)) } else a3
          | _ => a3
        let a5 := match a4.log_file with
          | some f => if f ≠ "" then { a4 with log_file := some (resolve f) } else a4
          | none => a4
        Except.ok a5

/-- C2: every namespace the parser can produce lacks the verbose and quiet
attributes, so _post_process_args raises AttributeError on every parsed
argument combination instead of deriving log_level. -/
theorem post_process_args_always_raises (resolve : String → String)
    (cfg log_level log_file : String) (debug : Bool) (mode : String)
    (input : List String) (output : Option String) (fmt : String) :
    post_process_args resolve
        (parsed_namespace cfg log_level log_file debug mode input output fmt)
      = Except.error PyErr.attributeError := by
  cases debug <;> simp [post_process_args, parsed_namespace]

/-- The file system seen by the validators. -/
structure FS where
  pathExists : String → Bool
  isFile : String → Bool
  isDir : String → Bool
  writable : String → Bool

/-- Encode an argparse Optional[str] value as a Python value. -/
def optStrVal : Option String → JVal
  | none => JVal.vnull
  | some s => JVal.vstr s

/-- The existence loop of _validate_dependencies over the input paths. -/
def checkInputs (pathExists : String → Bool) : List String → Except PyErr Unit
  | [] => Except.ok ()
  | p :: rest =>
      match validate_file_or_directory_exists pathExists p with
      | Except.error e => Except.error e
      | Except.ok _ => checkInputs pathExists rest

/-- AppArgParser._validate_dependencies: convert mode requires output;
batch mode requires input; every supplied input path must exist; then the
two mutual-exclusion checks, each of which passes validate_mutually_exclusive
a single tuple argument (modelled as a single two-element list value).
Reading an absent attribute raises AttributeError. -/
def validate_dependencies (fs : FS) (a : ArgNamespace) : Except PyErr Unit :=
  match a.mode, a.output with
  | some mode, some outp =>
    (match validate_conditional_required (mode == "convert") (optStrVal outp) with
     | Except.error e => Except.error e
     | Except.ok _ =>
       match a.input with
       | none => Except.error PyErr.attributeError
       | some inp =>
         match validate_conditional_required (mode == "batch")
             (JVal.vlist (inp.map JVal.vstr)) with
         | Except.error e => Except.error e
         | Except.ok _ =>
           match (if inp.isEmpty then Except.ok () else checkInputs fs.pathExists inp) with
           | Except.error e => Except.error e
           | Except.ok _ =>
             match a.quiet, a.verbose with
             | some q, some vb =>
               (match validate_mutually_exclusive
                   [JVal.vlist [JVal.vbool q, JVal.vbool (decide (vb > 0))]]
                   (some ["--quiet", "--verbose"]) with
                | Except.error e => Except.error e
                | Except.ok _ =>
                  match a.dry_run, a.force with
                  | some d, some f =>
                      validate_mutually_exclusive
                        [JVal.vlist [JVal.vbool d, JVal.vbool f]]
                        (some ["--dry-run", "--force"])
                  | _, _ => Except.error PyErr.attributeError)
             | _, _ => Except.error PyErr.attributeError)
  | _, _ => Except.error PyErr.attributeError

/-- app_validation.validate_file_exists. -/
def validate_file_exists (fs : FS) (p : String) : Except PyErr Unit :=
  if !(fs.pathExists p) then Except.error (PyErr.fileOperationError "FILE_NOT_FOUND")
  else if !(fs.isFile p) then Except.error (PyErr.fileOperationError "NOT_A_FILE")
  else Except.ok ()

/-- app_validation.validate_writable_directory with create_if_missing=False. -/
def validate_writable_directory_nocreate (fs : FS) (p : String) : Except PyErr Unit :=
  if !(fs.pathExists p) then Except.error (PyErr.fileOperationError "DIRECTORY_NOT_FOUND")
  else if !(fs.isDir p) then Except.error (PyErr.fileOperationError "NOT_A_DIRECTORY")
  else if !(fs.writable p) then Except.error (PyErr.fileOperationError "PERMISSION_DENIED")
  else Except.ok ()

/-- AppArgParser._validate_file_paths: check the config file when it is not
the default name, and the output directory when set; the namespace never has
a log_dir attribute, so that branch is skipped by its hasattr guard. -/
def validate_file_paths (fs : FS) (a : ArgNamespace) : Except PyErr Unit :=
  match (match a.config with
         | some c =>
             if c ≠ "pyapp-base_config.json" then validate_file_exists fs c
             else Except.ok ()
         | none => Except.ok ()) with
  | Except.error e => Except.error e
  | Except.ok _ =>
      match a.output with
      | some (some o) =>
          if o ≠ "" then validate_writable_directory_nocreate fs o else Except.ok ()
      | _ => Except.ok ()

/-- AppArgParser.validate_args: parse (with post-processing), then validate
dependencies, then validate file paths. -/
def validate_args (resolve : String → String) (fs : FS) (a : ArgNamespace) :
    Except PyErr ArgNamespace :=
  match post_process_args resolve a with
  | Except.error e => Except.error e
  | Except.ok a1 =>
      match validate_dependencies fs a1 with
      | Except.error e => Except.error e
      | Except.ok _ =>
          match validate_file_paths fs a1 with
          | Except.error e => Except.error e
          | Except.ok _ => Except.ok a1

/-- C3: on every namespace the parser can produce, validate_args raises
AttributeError (in post-processing, before any dependency check runs), so
it never performs the claimed dependency validation. -/
theorem validate_args_always_raises (resolve : String → String) (fs : FS)
    (cfg log_level log_file : String) (debug : Bool) (mode : String)
    (input : List String) (output : Option String) (fmt : String) :
    validate_args resolve fs
        (parsed_namespace cfg log_level log_file debug mode input output fmt)
      = Except.error PyErr.attributeError := by
  cases debug <;> simp [validate_args, post_process_args, parsed_namespace]

/-!
Deep-merge correctness (AppConfig._merge_configs).

A Python dict has no duplicate keys; nodupKeys/wfJ state this for the
association-list model, recursively for wfJ.  equivJ is extensional
equality of trees viewed as key-to-value functions: dictionaries are
compared by lookup (ignoring entry order), lists and scalars by value.
-/

/-- No key occurs twice (always true of a Python dict). -/
def nodupKeys {α : Type} : List (String × α) → Bool
  | [] => true
  | (k, _) :: rest => !(rest.any (fun p => p.1 == k)) && nodupKeys rest

mutual

/-- Well-formed value: every dict reachable in it has no duplicate keys. -/
def wfJ : JVal → Bool
  | JVal.vdict es => nodupKeys es && wfEntries es
  | JVal.vlist xs => wfList xs
  | _ => true

def wfEntries : List (String × JVal) → Bool
  | [] => true
  | (_, v) :: rest => wfJ v && wfEntries rest

def wfList : List JVal → Bool
  | [] => true
  | v :: rest => wfJ v && wfList rest

end

mutual

/-- Extensional equivalence of values: dicts are equal as key-to-value
functions (recursively), lists pointwise, scalars by value. -/
def equivJ : JVal → JVal → Bool
  | JVal.vnull, JVal.vnull => true
  | JVal.vbool b1, JVal.vbool b2 => b1 == b2
  | JVal.vnum n1, JVal.vnum n2 => n1 == n2
  | JVal.vstr s1, JVal.vstr s2 => s1 == s2
  | JVal.vlist xs, JVal.vlist ys => equivList xs ys
  | JVal.vdict es1, JVal.vdict es2 =>
      subDict es1 es2 && es2.all (fun p => (dlookup p.1 es1).isSome)
  | _, _ => false

def equivList : List JVal → List JVal → Bool
  | [], [] => true
  | x :: xs, y :: ys => equivJ x y && equivList xs ys
  | _ :: _, [] => false
  | [], _ :: _ => false

/-- Every binding of the first dict matches the lookup in the second. -/
def subDict : List (String × JVal) → List (String × JVal) → Bool
  | [], _ => true
  | (k, v) :: rest, es2 =>
      (match dlookup k es2 with
       | some v2 => equivJ v v2
       | none => false) && subDict rest es2

end

/-- Pointwise equivalence of optional lookup results. -/
def optEquiv : Option JVal → Option JVal → Bool
  | none, none => true
  | some v1, some v2 => equivJ v1 v2
  | _, _ => false

/-- The claimed per-key value of the merge: a key only in base keeps base's
value, a key in both with two dict values maps to the recursive merge, any
other key in updates takes updates' value. -/
def mergeLookupSpec (b u : Entries) (k : String) : Option JVal :=
  match dlookup k b, dlookup k u with
  | some vb, none => some vb
  | some (JVal.vdict db), some (JVal.vdict du) =>
      some (JVal.vdict (merge_configs db du))
  | _, some vu => some vu
  | none, none => none

theorem dlookup_dinsert_self {α : Type} (k : String) (v : α) (l : List (String × α)) :
    dlookup k (dinsert k v l) = some v := by
  induction l with
  | nil => simp [dinsert, dlookup]
  | cons p rest ih =>
      obtain ⟨k1, v1⟩ := p
      by_cases h : k1 = k
      · simp [dinsert, dlookup, h]
      · simp [dinsert, dlookup, h, ih]

theorem dlookup_dinsert_ne {α : Type} (k k2 : String) (v : α) (l : List (String × α))
    (h : k2 ≠ k) : dlookup k2 (dinsert k v l) = dlookup k2 l := by
  have hne : ¬ k = k2 := fun he => h he.symm
  induction l with
  | nil => simp [dinsert, dlookup, hne]
  | cons p rest ih =>
      obtain ⟨k1, v1⟩ := p
      by_cases h1 : k1 = k
      · subst h1
        simp [dinsert, dlookup, hne]
      · simp [dinsert, dlookup, h1, ih]

theorem dlookup_mem {α : Type} {k : String} {v : α} :
    ∀ {l : List (String × α)}, dlookup k l = some v → (k, v) ∈ l := by
  intro l
  induction l with
  | nil => intro h; simp [dlookup] at h
  | cons p rest ih =>
      obtain ⟨k1, v1⟩ := p
      intro h
      by_cases h1 : k1 = k
      · subst h1
        simp [dlookup] at h
        simp [h]
      · simp [dlookup, h1] at h
        exact List.mem_cons_of_mem _ (ih h)

theorem mem_dlookup_isSome {α : Type} {k : String} {v : α} :
    ∀ {l : List (String × α)}, (k, v) ∈ l → (dlookup k l).isSome = true := by
  intro l
  induction l with
  | nil => intro h; simp at h
  | cons p rest ih =>
      obtain ⟨k1, v1⟩ := p
      intro h
      by_cases h1 : k1 = k
      · simp [dlookup, h1]
      · rcases List.mem_cons.mp h with h2 | h2
        · exact absurd (congrArg Prod.fst h2).symm h1
        · simp [dlookup, h1, ih h2]

theorem dlookup_eq_none_of_not_any {α : Type} {k : String} :
    ∀ {l : List (String × α)}, l.any (fun p => p.1 == k) = false → dlookup k l = none := by
  intro l
  induction l with
  | nil => intro _; rfl
  | cons p rest ih =>
      obtain ⟨k1, v1⟩ := p
      intro h
      simp [List.any_cons] at h
      simp [dlookup, h.1, ih (by simp [List.any_eq_true]; exact fun x hx => h.2 x hx)]

theorem mem_dlookup {α : Type} {k : String} {v : α} :
    ∀ {l : List (String × α)}, nodupKeys l = true → (k, v) ∈ l → dlookup k l = some v := by
  intro l
  induction l with
  | nil => intro _ h; simp at h
  | cons p rest ih =>
      obtain ⟨k1, v1⟩ := p
      intro hn h
      simp [nodupKeys] at hn
      rcases List.mem_cons.mp h with h2 | h2
      · obtain ⟨hk, hv⟩ := Prod.mk.injEq .. ▸ h2
        simp [dlookup, hk.symm, hv]
      · by_cases h1 : k1 = k
        · subst h1
          have := mem_dlookup_isSome h2
          have hnone := dlookup_eq_none_of_not_any (l := rest) (k := k1)
            (by simp [List.any_eq_true]; exact fun x hx => hn.1 x hx)
          rw [hnone] at this
          simp at this
        · simp [dlookup, h1, ih hn.2 h2]

/-- The value assigned by one step of the merge loop: the recursive merge
when both the accumulator value and the update value are dicts, otherwise
the update value. -/
def mergeVal (b : Entries) (k0 : String) (v0 : JVal) : JVal :=
  match dlookup k0 b, v0 with
  | some (JVal.vdict db), JVal.vdict du => JVal.vdict (merge_configs db du)
  | _, _ => v0

/-- One step of the merge loop: processing the first update entry is a
dict-aware assignment into the accumulator. -/
theorem merge_configs_cons (b : Entries) (k0 : String) (v0 : JVal) (rest : Entries) :
    merge_configs b ((k0, v0) :: rest) =
      merge_configs (dinsert k0 (mergeVal b k0 v0) b) rest := by
  cases v0 with
  | vdict du =>
      cases hb : dlookup k0 b with
      | none => simp [merge_configs, mergeVal, hb]
      | some vb => cases vb <;> simp [merge_configs, mergeVal, hb]
  | vnull =>
      cases hb : dlookup k0 b with
      | none => simp [merge_configs, mergeVal, hb]
      | some vb => cases vb <;> simp [merge_configs, mergeVal, hb]
  | vbool b1 =>
      cases hb : dlookup k0 b with
      | none => simp [merge_configs, mergeVal, hb]
      | some vb => cases vb <;> simp [merge_configs, mergeVal, hb]
  | vnum n =>
      cases hb : dlookup k0 b with
      | none => simp [merge_configs, mergeVal, hb]
      | some vb => cases vb <;> simp [merge_configs, mergeVal, hb]
  | vstr s =>
      cases hb : dlookup k0 b with
      | none => simp [merge_configs, mergeVal, hb]
      | some vb => cases vb <;> simp [merge_configs, mergeVal, hb]
  | vlist xs =>
      cases hb : dlookup k0 b with
      | none => simp [merge_configs, mergeVal, hb]
      | some vb => cases vb <;> simp [merge_configs, mergeVal, hb]

theorem mergeLookupSpec_cons (b : Entries) (k0 : String) (v0 : JVal) (rest : Entries)
    (hrest : dlookup k0 rest = none) (k : String) :
    mergeLookupSpec (dinsert k0 (mergeVal b k0 v0) b) rest k
      = mergeLookupSpec b ((k0, v0) :: rest) k := by
  by_cases hk : k = k0
  · subst hk
    rw [mergeLookupSpec, mergeLookupSpec, dlookup_dinsert_self, hrest]
    have hcons : dlookup k ((k, v0) :: rest) = some v0 := by simp [dlookup]
    rw [hcons]
    cases v0 with
    | vdict du =>
        cases hb : dlookup k b with
        | none => simp [mergeVal, hb]
        | some vb => cases vb <;> simp [mergeVal, hb]
    | vnull =>
        cases hb : dlookup k b with
        | none => simp [mergeVal, hb]
        | some vb => cases vb <;> simp [mergeVal, hb]
    | vbool b1 =>
        cases hb : dlookup k b with
        | none => simp [mergeVal, hb]
        | some vb => cases vb <;> simp [mergeVal, hb]
    | vnum n =>
        cases hb : dlookup k b with
        | none => simp [mergeVal, hb]
        | some vb => cases vb <;> simp [mergeVal, hb]
    | vstr s =>
        cases hb : dlookup k b with
        | none => simp [mergeVal, hb]
        | some vb => cases vb <;> simp [mergeVal, hb]
    | vlist xs =>
        cases hb : dlookup k b with
        | none => simp [mergeVal, hb]
        | some vb => cases vb <;> simp [mergeVal, hb]
  · rw [mergeLookupSpec, mergeLookupSpec, dlookup_dinsert_ne _ _ _ _ hk]
    have hk0 : ¬ k0 = k := fun he => hk he.symm
    have hcons : dlookup k ((k0, v0) :: rest) = dlookup k rest := by
      simp [dlookup, hk0]
    rw [hcons]

/-- C1 part 1 machinery: the value of the merge at each key. -/
theorem dlookup_merge_configs (u : Entries) : ∀ (b : Entries), nodupKeys u = true →
    ∀ k, dlookup k (merge_configs b u) = mergeLookupSpec b u k := by
  induction u with
  | nil =>
      intro b _ k
      rw [show merge_configs b [] = b from by simp [merge_configs]]
      rw [mergeLookupSpec]
      cases hb : dlookup k b <;> simp [dlookup]
  | cons hd rest ih =>
      obtain ⟨k0, v0⟩ := hd
      intro b hn k
      have hsplit : (rest.any (fun p => p.1 == k0)) = false ∧ nodupKeys rest = true := by
        simpa [nodupKeys] using hn
      rw [merge_configs_cons, ih _ hsplit.2]
      exact mergeLookupSpec_cons b k0 v0 rest (dlookup_eq_none_of_not_any hsplit.1) k

theorem nodupKeys_cons {α : Type} (k : String) (v : α) (rest : List (String × α)) :
    nodupKeys ((k, v) :: rest) = true ↔
      (rest.any (fun p => p.1 == k)) = false ∧ nodupKeys rest = true := by
  simp [nodupKeys]

theorem any_key_dinsert {α : Type} (k k1 : String) (v : α) (l : List (String × α)) :
    ((dinsert k v l).any (fun p => p.1 == k1) = true) ↔
      (k = k1 ∨ l.any (fun p => p.1 == k1) = true) := by
  induction l with
  | nil => simp [dinsert]
  | cons p rest ih =>
      obtain ⟨k2, v2⟩ := p
      by_cases h : k2 = k
      · subst h
        simp [dinsert]
        try tauto
      · simp [dinsert, h, ih]
        try tauto

theorem nodupKeys_dinsert {α : Type} (k : String) (v : α) (l : List (String × α))
    (h : nodupKeys l = true) : nodupKeys (dinsert k v l) = true := by
  induction l with
  | nil => simp [dinsert, nodupKeys]
  | cons p rest ih =>
      obtain ⟨k1, v1⟩ := p
      have h2 := (nodupKeys_cons k1 v1 rest).mp h
      by_cases hk : k1 = k
      · subst hk
        have : dinsert k1 v ((k1, v1) :: rest) = (k1, v) :: rest := by simp [dinsert]
        rw [this]
        exact (nodupKeys_cons k1 v rest).mpr h2
      · have : dinsert k v ((k1, v1) :: rest) = (k1, v1) :: dinsert k v rest := by
          simp [dinsert, hk]
        rw [this]
        refine (nodupKeys_cons k1 v1 _).mpr ⟨?_, ih h2.2⟩
        rcases Bool.eq_false_or_eq_true ((dinsert k v rest).any (fun p => p.1 == k1)) with hb | hb
        · rcases (any_key_dinsert k k1 v rest).mp hb with hc | hc
          · exact absurd hc.symm hk
          · rw [hc] at h2
            exact absurd h2.1 (by simp)
        · exact hb

theorem wfEntries_cons (k : String) (v : JVal) (rest : Entries) :
    wfEntries ((k, v) :: rest) = true ↔ wfJ v = true ∧ wfEntries rest = true := by
  simp [wfEntries]

theorem wfEntries_dinsert (k : String) (v : JVal) (l : Entries)
    (hl : wfEntries l = true) (hv : wfJ v = true) : wfEntries (dinsert k v l) = true := by
  induction l with
  | nil => simp [dinsert, wfEntries, hv]
  | cons p rest ih =>
      obtain ⟨k1, v1⟩ := p
      have h2 := (wfEntries_cons k1 v1 rest).mp hl
      by_cases hk : k1 = k
      · subst hk
        have : dinsert k1 v ((k1, v1) :: rest) = (k1, v) :: rest := by simp [dinsert]
        rw [this]
        exact (wfEntries_cons _ _ _).mpr ⟨hv, h2.2⟩
      · have : dinsert k v ((k1, v1) :: rest) = (k1, v1) :: dinsert k v rest := by
          simp [dinsert, hk]
        rw [this]
        exact (wfEntries_cons _ _ _).mpr ⟨h2.1, ih h2.2⟩

theorem wfEntries_lookup {l : Entries} {k : String} {v : JVal}
    (hl : wfEntries l = true) (hv : dlookup k l = some v) : wfJ v = true := by
  induction l with
  | nil => simp [dlookup] at hv
  | cons p rest ih =>
      obtain ⟨k1, v1⟩ := p
      have h2 := (wfEntries_cons k1 v1 rest).mp hl
      by_cases hk : k1 = k
      · rw [dlookup, if_pos hk] at hv
        cases hv
        exact h2.1
      · rw [dlookup, if_neg hk] at hv
        exact ih h2.2 hv

theorem wf_merge_aux : ∀ (n : Nat), ∀ (u b : Entries), sizeOf u ≤ n →
    nodupKeys b = true → wfEntries b = true → nodupKeys u = true → wfEntries u = true →
    nodupKeys (merge_configs b u) = true ∧ wfEntries (merge_configs b u) = true := by
  intro n
  induction n with
  | zero =>
      intro u b hsz hnb hwb hnu hwu
      cases u with
      | nil =>
          rw [show merge_configs b [] = b from by simp [merge_configs]]
          exact ⟨hnb, hwb⟩
      | cons hd rest =>
          exfalso
          simp [List.cons.sizeOf_spec] at hsz
  | succ n ih =>
      intro u b hsz hnb hwb hnu hwu
      cases u with
      | nil =>
          rw [show merge_configs b [] = b from by simp [merge_configs]]
          exact ⟨hnb, hwb⟩
      | cons hd rest =>
          obtain ⟨k0, v0⟩ := hd
          rw [merge_configs_cons]
          have hu := (nodupKeys_cons k0 v0 rest).mp hnu
          have hw := (wfEntries_cons k0 v0 rest).mp hwu
          have hszr : sizeOf rest ≤ n := by
            simp [List.cons.sizeOf_spec] at hsz
            omega
          have hwval : wfJ (mergeVal b k0 v0) = true := by
            cases v0 with
            | vdict du =>
                cases hb : dlookup k0 b with
                | none => simpa [mergeVal, hb] using hw.1
                | some vb =>
                    cases vb with
                    | vdict db =>
                        have hwdb : wfJ (JVal.vdict db) = true := wfEntries_lookup hwb hb
                        have h1 : nodupKeys db = true ∧ wfEntries db = true := by
                          simpa [wfJ] using hwdb
                        have h2 : nodupKeys du = true ∧ wfEntries du = true := by
                          simpa [wfJ] using hw.1
                        have hsz2 : sizeOf du ≤ n := by
                          simp [List.cons.sizeOf_spec, Prod.mk.sizeOf_spec,
                            JVal.vdict.sizeOf_spec] at hsz
                          omega
                        have h3 := ih du db hsz2 h1.1 h1.2 h2.1 h2.2
                        simpa [mergeVal, hb, wfJ] using ⟨h3.1, h3.2⟩
                    | vnull => simpa [mergeVal, hb] using hw.1
                    | vbool b1 => simpa [mergeVal, hb] using hw.1
                    | vnum m => simpa [mergeVal, hb] using hw.1
                    | vstr s => simpa [mergeVal, hb] using hw.1
                    | vlist xs => simpa [mergeVal, hb] using hw.1
            | vnull =>
                cases hb : dlookup k0 b with
                | none => simpa [mergeVal, hb] using hw.1
                | some vb => cases vb <;> simpa [mergeVal, hb] using hw.1
            | vbool b1 =>
                cases hb : dlookup k0 b with
                | none => simpa [mergeVal, hb] using hw.1
                | some vb => cases vb <;> simpa [mergeVal, hb] using hw.1
            | vnum m =>
                cases hb : dlookup k0 b with
                | none => simpa [mergeVal, hb] using hw.1
                | some vb => cases vb <;> simpa [mergeVal, hb] using hw.1
            | vstr s =>
                cases hb : dlookup k0 b with
                | none => simpa [mergeVal, hb] using hw.1
                | some vb => cases vb <;> simpa [mergeVal, hb] using hw.1
            | vlist xs =>
                cases hb : dlookup k0 b with
                | none => simpa [mergeVal, hb] using hw.1
                | some vb => cases vb <;> simpa [mergeVal, hb] using hw.1
          exact ih rest (dinsert k0 _ b) hszr
            (nodupKeys_dinsert _ _ _ hnb)
            (wfEntries_dinsert _ _ _ hwb hwval) hu.2 hw.2

/-- The merge of two well-formed dicts is well-formed. -/
theorem wf_merge (b u : Entries) (hnb : nodupKeys b = true) (hwb : wfEntries b = true)
    (hnu : nodupKeys u = true) (hwu : wfEntries u = true) :
    nodupKeys (merge_configs b u) = true ∧ wfEntries (merge_configs b u) = true :=
  wf_merge_aux (sizeOf u) u b (Nat.le_refl _) hnb hwb hnu hwu

/-- Whether a value is a dict (Python isinstance(v, dict)). -/
def isDict : JVal → Bool
  | JVal.vdict _ => true
  | _ => false

theorem equivJ_isDict {x y : JVal} (h : equivJ x y = true) : isDict y = isDict x := by
  cases x <;> cases y <;> simp [equivJ, isDict] at h ⊢

theorem isDict_exists {x : JVal} (h : isDict x = true) : ∃ es, x = JVal.vdict es := by
  cases x <;> simp [isDict] at h ⊢

theorem dlookup_sizeOf {α : Type} [SizeOf α] {k : String} {v : α} :
    ∀ {l : List (String × α)}, dlookup k l = some v → sizeOf v < sizeOf l := by
  intro l
  induction l with
  | nil => intro h; simp [dlookup] at h
  | cons p rest ih =>
      obtain ⟨k1, v1⟩ := p
      intro h
      by_cases h1 : k1 = k
      · rw [dlookup, if_pos h1] at h
        cases h
        simp [List.cons.sizeOf_spec, Prod.mk.sizeOf_spec]
        omega
      · rw [dlookup, if_neg h1] at h
        have := ih h
        simp [List.cons.sizeOf_spec]
        omega

theorem mergeVal_none {b : Entries} {k : String} (vu : JVal)
    (hb : dlookup k b = none) : mergeVal b k vu = vu := by
  cases vu <;> simp [mergeVal, hb]

theorem mergeVal_dict_dict {b : Entries} {k : String} {db : Entries} (du : Entries)
    (hb : dlookup k b = some (JVal.vdict db)) :
    mergeVal b k (JVal.vdict du) = JVal.vdict (merge_configs db du) := by
  simp [mergeVal, hb]

theorem mergeVal_not_both {b : Entries} {k : String} {vb vu : JVal}
    (hb : dlookup k b = some vb)
    (hd : ¬ (isDict vb = true ∧ isDict vu = true)) : mergeVal b k vu = vu := by
  cases vb <;> cases vu <;> simp [isDict] at hd <;> simp [mergeVal, hb]

/-- The per-key merge value, re-expressed through mergeVal. -/
theorem mergeLookupSpec_eq (b u : Entries) (k : String) :
    mergeLookupSpec b u k =
      match dlookup k u with
      | none => dlookup k b
      | some vu => some (mergeVal b k vu) := by
  cases h1 : dlookup k u with
  | none =>
      cases h2 : dlookup k b with
      | none => simp [mergeLookupSpec, h1, h2]
      | some vb => cases vb <;> simp [mergeLookupSpec, h1, h2]
  | some vu =>
      cases h2 : dlookup k b with
      | none => cases vu <;> simp [mergeLookupSpec, mergeVal, h1, h2]
      | some vb => cases vb <;> cases vu <;> simp [mergeLookupSpec, mergeVal, h1, h2]

theorem subDict_lookup : ∀ {es1 es2 : Entries}, subDict es1 es2 = true →
    ∀ {k : String} {v : JVal}, dlookup k es1 = some v →
      ∃ v2, dlookup k es2 = some v2 ∧ equivJ v v2 = true := by
  intro es1
  induction es1 with
  | nil => intro es2 _ k v hv; simp [dlookup] at hv
  | cons p rest ih =>
      obtain ⟨k1, w⟩ := p
      intro es2 h k v hv
      have h2 : (match dlookup k1 es2 with
          | some v2 => equivJ w v2
          | none => false) = true ∧ subDict rest es2 = true := by
        simpa [subDict] using h
      by_cases h1 : k1 = k
      · subst h1
        rw [dlookup, if_pos rfl] at hv
        cases hv
        cases h3 : dlookup k1 es2 with
        | none => rw [h3] at h2; simp at h2
        | some v2 =>
            rw [h3] at h2
            exact ⟨v2, rfl, h2.1⟩
      · rw [dlookup, if_neg h1] at hv
        exact ih h2.2 hv

theorem equivDict_lookup {es1 es2 : Entries}
    (h : equivJ (JVal.vdict es1) (JVal.vdict es2) = true) (k : String) :
    optEquiv (dlookup k es1) (dlookup k es2) = true := by
  have h2 : subDict es1 es2 = true ∧
      (es2.all (fun p => (dlookup p.1 es1).isSome)) = true := by
    simpa [equivJ] using h
  cases h1 : dlookup k es1 with
  | some v =>
      obtain ⟨v2, hv2, he⟩ := subDict_lookup h2.1 h1
      simp [optEquiv, hv2, he]
  | none =>
      cases h3 : dlookup k es2 with
      | none => simp [optEquiv]
      | some v2 =>
          have hmem := dlookup_mem h3
          have := List.all_eq_true.mp h2.2 (k, v2) hmem
          rw [h1] at this
          simp at this

theorem subDict_of_forall (es2 : Entries) : ∀ (l : Entries),
    (∀ k v, (k, v) ∈ l → ∃ v2, dlookup k es2 = some v2 ∧ equivJ v v2 = true) →
    subDict l es2 = true := by
  intro l
  induction l with
  | nil => intro _; simp [subDict]
  | cons p rest ih =>
      obtain ⟨k1, w⟩ := p
      intro hall
      obtain ⟨v2, hv2, he⟩ := hall k1 w (List.mem_cons_self _ _)
      have hrest := ih (fun k v hm => hall k v (List.mem_cons_of_mem _ hm))
      simp [subDict, hv2, he, hrest]

theorem equivJ_dict_of_lookup {es1 es2 : Entries} (hn1 : nodupKeys es1 = true)
    (hall : ∀ k, optEquiv (dlookup k es1) (dlookup k es2) = true) :
    equivJ (JVal.vdict es1) (JVal.vdict es2) = true := by
  have hsub : subDict es1 es2 = true := by
    apply subDict_of_forall
    intro k v hm
    have h1 := mem_dlookup hn1 hm
    have h2 := hall k
    rw [h1] at h2
    cases h3 : dlookup k es2 with
    | none => rw [h3] at h2; simp [optEquiv] at h2
    | some v2 =>
        rw [h3] at h2
        exact ⟨v2, rfl, by simpa [optEquiv] using h2⟩
  have hkeys : (es2.all (fun p => (dlookup p.1 es1).isSome)) = true := by
    apply List.all_eq_true.mpr
    intro p hp
    obtain ⟨k, v2⟩ := p
    have hsome := mem_dlookup_isSome hp
    have h2 := hall k
    cases h3 : dlookup k es1 with
    | some w => simp [h3]
    | none =>
        rw [h3] at h2
        cases h4 : dlookup k es2 with
        | none => rw [h4] at hsome; simp at hsome
        | some w => rw [h4] at h2; simp [optEquiv] at h2
  simp [equivJ, hsub, hkeys]

theorem merge_equiv_aux : ∀ (n : Nat), ∀ (b u b2 u2 : Entries), sizeOf u ≤ n →
    nodupKeys b = true → wfEntries b = true → nodupKeys u = true → wfEntries u = true →
    nodupKeys b2 = true → wfEntries b2 = true → nodupKeys u2 = true → wfEntries u2 = true →
    equivJ (JVal.vdict b) (JVal.vdict b2) = true →
    equivJ (JVal.vdict u) (JVal.vdict u2) = true →
    equivJ (JVal.vdict (merge_configs b u)) (JVal.vdict (merge_configs b2 u2)) = true := by
  intro n
  induction n with
  | zero =>
      intro b u b2 u2 hsz _ _ _ _ _ _ _ _ _ _
      exfalso
      cases u with
      | nil => simp at hsz
      | cons hd rest =>
          simp [List.cons.sizeOf_spec] at hsz
  | succ n ih =>
      intro b u b2 u2 hsz hnb hwb hnu hwu hnb2 hwb2 hnu2 hwu2 heqb hequ
      obtain ⟨hnm1, hwm1⟩ := wf_merge b u hnb hwb hnu hwu
      apply equivJ_dict_of_lookup hnm1
      intro k
      rw [dlookup_merge_configs u b hnu k, dlookup_merge_configs u2 b2 hnu2 k,
        mergeLookupSpec_eq, mergeLookupSpec_eq]
      have hbk := equivDict_lookup heqb k
      have huk := equivDict_lookup hequ k
      cases h1 : dlookup k u with
      | none =>
          have h1b : dlookup k u2 = none := by
            rw [h1] at huk
            cases h2 : dlookup k u2 with
            | none => rfl
            | some w => rw [h2] at huk; simp [optEquiv] at huk
          rw [h1b]
          exact hbk
      | some vu =>
          obtain ⟨vu2, h1b, hequv⟩ : ∃ vu2, dlookup k u2 = some vu2 ∧ equivJ vu vu2 = true := by
            rw [h1] at huk
            cases h2 : dlookup k u2 with
            | none => rw [h2] at huk; simp [optEquiv] at huk
            | some w =>
                rw [h2] at huk
                exact ⟨w, rfl, by simpa [optEquiv] using huk⟩
          rw [h1b]
          show optEquiv (some (mergeVal b k vu)) (some (mergeVal b2 k vu2)) = true
          show equivJ (mergeVal b k vu) (mergeVal b2 k vu2) = true
          cases h3 : dlookup k b with
          | none =>
              have h3b : dlookup k b2 = none := by
                rw [h3] at hbk
                cases h4 : dlookup k b2 with
                | none => rfl
                | some w => rw [h4] at hbk; simp [optEquiv] at hbk
              rw [mergeVal_none vu h3, mergeVal_none vu2 h3b]
              exact hequv
          | some vb =>
              obtain ⟨vb2, h3b, heqvb⟩ : ∃ vb2, dlookup k b2 = some vb2 ∧ equivJ vb vb2 = true := by
                rw [h3] at hbk
                cases h4 : dlookup k b2 with
                | none => rw [h4] at hbk; simp [optEquiv] at hbk
                | some w =>
                    rw [h4] at hbk
                    exact ⟨w, rfl, by simpa [optEquiv] using hbk⟩
              by_cases hd : isDict vb = true ∧ isDict vu = true
              · obtain ⟨db, hdb⟩ := isDict_exists hd.1
                obtain ⟨du, hdu⟩ := isDict_exists hd.2
                subst hdb hdu
                have hdic2 : isDict vb2 = true :=
                  (equivJ_isDict heqvb).trans (by simp [isDict])
                have hdic3 : isDict vu2 = true :=
                  (equivJ_isDict hequv).trans (by simp [isDict])
                obtain ⟨db2, hdb2⟩ := isDict_exists hdic2
                obtain ⟨du2, hdu2⟩ := isDict_exists hdic3
                subst hdb2 hdu2
                rw [mergeVal_dict_dict du h3, mergeVal_dict_dict du2 h3b]
                have hwdb : nodupKeys db = true ∧ wfEntries db = true := by
                  simpa [wfJ] using wfEntries_lookup hwb h3
                have hwdu : nodupKeys du = true ∧ wfEntries du = true := by
                  simpa [wfJ] using wfEntries_lookup hwu h1
                have hwdb2 : nodupKeys db2 = true ∧ wfEntries db2 = true := by
                  simpa [wfJ] using wfEntries_lookup hwb2 h3b
                have hwdu2 : nodupKeys du2 = true ∧ wfEntries du2 = true := by
                  simpa [wfJ] using wfEntries_lookup hwu2 h1b
                have hsz2 : sizeOf du ≤ n := by
                  have hlt := dlookup_sizeOf h1
                  simp [JVal.vdict.sizeOf_spec] at hlt
                  omega
                exact ih db du db2 du2 hsz2 hwdb.1 hwdb.2 hwdu.1 hwdu.2
                  hwdb2.1 hwdb2.2 hwdu2.1 hwdu2.2 heqvb hequv
              · have hd2 : ¬ (isDict vb2 = true ∧ isDict vu2 = true) := by
                  intro hx
                  apply hd
                  constructor
                  · rw [← equivJ_isDict heqvb]; exact hx.1
                  · rw [← equivJ_isDict hequv]; exact hx.2
                rw [mergeVal_not_both h3 hd, mergeVal_not_both h3b hd2]
                exact hequv

/-- C1: for nested mapping trees base and updates (Python dicts, so keys
are unique), the merge maps every key present only in base to base's value,
every key present in both with two mapping values to the recursive merge,
and every other key present in updates to updates' value (lists and scalars
replace); and the result, viewed as a key-to-value function to unbounded
depth, is unchanged when either input is replaced by an extensionally equal
tree, so it does not depend on insertion order. -/
theorem merge_configs_correct (b u : Entries) (hu : nodupKeys u = true) :
    (∀ k, dlookup k (merge_configs b u) = mergeLookupSpec b u k)
    ∧ (∀ b2 u2 : Entries,
        nodupKeys b = true → wfEntries b = true → wfEntries u = true →
        nodupKeys b2 = true → wfEntries b2 = true →
        nodupKeys u2 = true → wfEntries u2 = true →
        equivJ (JVal.vdict b) (JVal.vdict b2) = true →
        equivJ (JVal.vdict u) (JVal.vdict u2) = true →
        equivJ (JVal.vdict (merge_configs b u))
          (JVal.vdict (merge_configs b2 u2)) = true) :=
  ⟨dlookup_merge_configs u b hu,
   fun b2 u2 hnb hwb hwu hnb2 hwb2 hnu2 hwu2 heqb hequ =>
     merge_equiv_aux (sizeOf u) b u b2 u2 (Nat.le_refl _) hnb hwb hu hwu
       hnb2 hwb2 hnu2 hwu2 heqb hequ⟩

/-- A small base tree used to witness the merge theorem. -/
def exB : Entries :=
  [("a", JVal.vnum 1), ("s", JVal.vdict [("x", JVal.vnum 1), ("y", JVal.vnum 2)])]

/-- A small update tree used to witness the merge theorem. -/
def exU : Entries :=
  [("s", JVal.vdict [("y", JVal.vnum 9)]), ("t", JVal.vlist [JVal.vnum 3])]

/-- exB with its insertion order reversed. -/
def exB2 : Entries :=
  [("s", JVal.vdict [("y", JVal.vnum 2), ("x", JVal.vnum 1)]), ("a", JVal.vnum 1)]

/-- exU with its insertion order reversed. -/
def exU2 : Entries :=
  [("t", JVal.vlist [JVal.vnum 3]), ("s", JVal.vdict [("y", JVal.vnum 9)])]

/-- C1 witness: the merge theorem applied to concrete trees. -/
theorem merge_configs_correct_witness :
    dlookup "s" (merge_configs exB exU) = mergeLookupSpec exB exU "s"
    ∧ equivJ (JVal.vdict (merge_configs exB exU))
        (JVal.vdict (merge_configs exB2 exU2)) = true := by
  have h := merge_configs_correct exB exU (by decide)
  exact ⟨h.1 "s", h.2 exB2 exU2 (by decide) (by decide) (by decide) (by decide)
    (by decide) (by decide) (by decide) (by decide) (by decide)⟩

/-!
Heap model of _merge_configs (for the no-mutation frame property).

Python dicts are heap objects; values are either immediate (None, bool,
int, str, list) or references to dict objects.  The heap maps addresses to
dict entry lists.  result = base.copy() allocates a fresh cell with the
same entries; assignments go to the fresh cell; the recursive merge again
allocates.  Fuel makes the recursion (which follows object references, not
structure) well-founded; a run that returns some never ran out.
-/

/-- A Python value in the heap model: immediate, or a reference to a dict. -/
inductive HVal where
  | hnull : HVal
  | hbool (b : Bool) : HVal
  | hnum (n : Int) : HVal
  | hstr (s : String) : HVal
  | hlist (xs : List HVal) : HVal
  | href (a : Nat) : HVal

/-- Entries of a dict object. -/
abbrev HEntries := List (String × HVal)

/-- The heap: addresses of dict objects and their current entries. -/
abbrev Heap := List (Nat × HEntries)

def heapGet : Heap → Nat → Option HEntries
  | [], _ => none
  | (a1, es) :: rest, a => if a1 = a then some es else heapGet rest a

def heapSet : Heap → Nat → HEntries → Heap
  | [], _, _ => []
  | (a1, es1) :: rest, a, es => if a1 = a then (a, es) :: rest else (a1, es1) :: heapSet rest a es

/-- An address not used by any object in the heap. -/
def freshAddr (h : Heap) : Nat := h.foldr (fun p acc => max (p.1 + 1) acc) 0

/-- isinstance(result[key], dict) and isinstance(value, dict): both must be
references to dict objects. -/
def asRefs : Option HVal → HVal → Option (Nat × Nat)
  | some (HVal.href ra), HVal.href ua => some (ra, ua)
  | _, _ => none

mutual

/-- AppConfig._merge_configs on the heap: read both dicts, allocate
result = base.copy(), then run the update loop on the fresh cell and
return its address. -/
def mergeH : Nat → Heap → Nat → Nat → Option (Heap × Nat)
  | 0, _, _, _ => none
  | Nat.succ fuel, h, base, upd =>
      match heapGet h base, heapGet h upd with
      | some bE, some uE =>
          (match mergeLoop fuel ((freshAddr h, bE) :: h) (freshAddr h) uE with
           | some h2 => some (h2, freshAddr h)
           | none => none)
      | _, _ => none

/-- The for-loop of _merge_configs: for each update entry, either merge
recursively into a fresh dict and store the reference, or store the update
value, always writing to the result cell r. -/
def mergeLoop : Nat → Heap → Nat → List (String × HVal) → Option Heap
  | _, h, _, [] => some h
  | 0, _, _, _ :: _ => none
  | Nat.succ fuel, h, r, (k, v) :: rest =>
      match heapGet h r with
      | none => none
      | some rE =>
          match asRefs (dlookup k rE) v with
          | some (ra, ua) =>
              (match mergeH fuel h ra ua with
               | some (h2, sub) =>
                   (match heapGet h2 r with
                    | some rE2 =>
                        mergeLoop fuel (heapSet h2 r (dinsert k (HVal.href sub) rE2)) r rest
                    | none => none)
               | none => none)
          | none => mergeLoop fuel (heapSet h r (dinsert k v rE)) r rest

end

theorem heapGet_heapSet_ne (h : Heap) (r a : Nat) (es : HEntries) (hne : a ≠ r) :
    heapGet (heapSet h r es) a = heapGet h a := by
  induction h with
  | nil => rfl
  | cons p rest ih =>
      obtain ⟨a1, es1⟩ := p
      by_cases h1 : a1 = r
      · subst h1
        have hra : ¬ a1 = a := fun he => hne he.symm
        simp [heapSet, heapGet, hra]
      · simp [heapSet, heapGet, h1, ih]

theorem lt_freshAddr : ∀ (h : Heap) (a : Nat) (es : HEntries),
    heapGet h a = some es → a < freshAddr h := by
  intro h
  induction h with
  | nil => intro a es hget; simp [heapGet] at hget
  | cons p rest ih =>
      obtain ⟨a1, es1⟩ := p
      intro a es hget
      by_cases h1 : a1 = a
      · subst h1
        simp [freshAddr, List.foldr]
      · rw [heapGet, if_neg h1] at hget
        have := ih a es hget
        simp [freshAddr, List.foldr]
        right
        exact this

theorem heapGet_freshAddr (h : Heap) : heapGet h (freshAddr h) = none := by
  cases hget : heapGet h (freshAddr h) with
  | none => rfl
  | some es => exact absurd (lt_freshAddr h _ es hget) (by omega)

theorem mergeH_frame_aux : ∀ (n : Nat),
    (∀ h base upd h2 r, mergeH n h base upd = some (h2, r) →
      (∀ a es, heapGet h a = some es → heapGet h2 a = some es) ∧ heapGet h r = none)
    ∧ (∀ es h r h2, mergeLoop n h r es = some h2 →
      ∀ a es2, a ≠ r → heapGet h a = some es2 → heapGet h2 a = some es2) := by
  intro n
  induction n with
  | zero =>
      constructor
      · intro h base upd h2 r hm
        simp [mergeH] at hm
      · intro es h r h2 hm a es2 hne hget
        cases es with
        | nil =>
            simp [mergeLoop] at hm
            subst hm
            exact hget
        | cons p rest => simp [mergeLoop] at hm
  | succ n ih =>
      obtain ⟨ihP, ihQ⟩ := ih
      constructor
      · intro h base upd h2 r hm
        cases hb : heapGet h base with
        | none =>
            rw [show mergeH (Nat.succ n) h base upd = none from by simp [mergeH, hb]] at hm
            simp at hm
        | some bE =>
            cases hu : heapGet h upd with
            | none =>
                rw [show mergeH (Nat.succ n) h base upd = none from by
                  simp [mergeH, hb, hu]] at hm
                simp at hm
            | some uE =>
                cases hl : mergeLoop n ((freshAddr h, bE) :: h) (freshAddr h) uE with
                | none =>
                    rw [show mergeH (Nat.succ n) h base upd = none from by
                      simp [mergeH, hb, hu, hl]] at hm
                    simp at hm
                | some h3 =>
                    rw [show mergeH (Nat.succ n) h base upd = some (h3, freshAddr h) from by
                      simp [mergeH, hb, hu, hl]] at hm
                    simp at hm
                    obtain ⟨hh3, hr⟩ := hm
                    subst hh3
                    subst hr
                    constructor
                    · intro a es hget
                      have hne : a ≠ freshAddr h := by
                        intro he
                        rw [he, heapGet_freshAddr] at hget
                        simp at hget
                      have hfa : ¬ freshAddr h = a := fun he => hne he.symm
                      have hcons : heapGet ((freshAddr h, bE) :: h) a = some es := by
                        simp [heapGet, hfa]
                        exact hget
                      exact ihQ uE _ (freshAddr h) _ hl a es hne hcons
                    · exact heapGet_freshAddr h
      · intro es h r h2 hm a es2 hne hget
        cases es with
        | nil =>
            simp [mergeLoop] at hm
            subst hm
            exact hget
        | cons p rest =>
            obtain ⟨k, v⟩ := p
            cases hr : heapGet h r with
            | none =>
                rw [show mergeLoop (Nat.succ n) h r ((k, v) :: rest) = none from by
                  simp [mergeLoop, hr]] at hm
                simp at hm
            | some rE =>
                cases har : asRefs (dlookup k rE) v with
                | none =>
                    rw [show mergeLoop (Nat.succ n) h r ((k, v) :: rest)
                        = mergeLoop n (heapSet h r (dinsert k v rE)) r rest from by
                      simp [mergeLoop, hr, har]] at hm
                    have hget2 : heapGet (heapSet h r (dinsert k v rE)) a = some es2 := by
                      rw [heapGet_heapSet_ne _ _ _ _ hne]
                      exact hget
                    exact ihQ rest _ r h2 hm a es2 hne hget2
                | some p2 =>
                    obtain ⟨ra, ua⟩ := p2
                    cases hmh : mergeH n h ra ua with
                    | none =>
                        rw [show mergeLoop (Nat.succ n) h r ((k, v) :: rest) = none from by
                          simp [mergeLoop, hr, har, hmh]] at hm
                        simp at hm
                    | some pr =>
                        obtain ⟨h3, sub⟩ := pr
                        have hP := ihP h ra ua h3 sub hmh
                        cases hr2 : heapGet h3 r with
                        | none =>
                            rw [show mergeLoop (Nat.succ n) h r ((k, v) :: rest) = none from by
                              simp [mergeLoop, hr, har, hmh, hr2]] at hm
                            simp at hm
                        | some rE2 =>
                            rw [show mergeLoop (Nat.succ n) h r ((k, v) :: rest)
                                = mergeLoop n (heapSet h3 r (dinsert k (HVal.href sub) rE2))
                                    r rest from by
                              simp [mergeLoop, hr, har, hmh, hr2]] at hm
                            have hget3 : heapGet h3 a = some es2 := hP.1 a es2 hget
                            have hget4 : heapGet (heapSet h3 r
                                (dinsert k (HVal.href sub) rE2)) a = some es2 := by
                              rw [heapGet_heapSet_ne _ _ _ _ hne]
                              exact hget3
                            exact ihQ rest _ r h2 hm a es2 hne hget4

mutual

/-- Read the tree denoted by a value in the heap (fuel-bounded: success
means the walk stayed within the fuel and met no dangling reference). -/
def readTree : Nat → Heap → HVal → Option JVal
  | 0, _, _ => none
  | Nat.succ _, _, HVal.hnull => some JVal.vnull
  | Nat.succ _, _, HVal.hbool b => some (JVal.vbool b)
  | Nat.succ _, _, HVal.hnum n => some (JVal.vnum n)
  | Nat.succ _, _, HVal.hstr s => some (JVal.vstr s)
  | Nat.succ fuel, h, HVal.hlist xs =>
      (match readList fuel h xs with
       | some ys => some (JVal.vlist ys)
       | none => none)
  | Nat.succ fuel, h, HVal.href a =>
      (match heapGet h a with
       | none => none
       | some es =>
           match readEntries fuel h es with
           | some js => some (JVal.vdict js)
           | none => none)

def readEntries : Nat → Heap → List (String × HVal) → Option (List (String × JVal))
  | _, _, [] => some []
  | 0, _, _ :: _ => none
  | Nat.succ fuel, h, (k, v) :: rest =>
      (match readTree fuel h v, readEntries fuel h rest with
       | some j, some js => some ((k, j) :: js)
       | _, _ => none)

def readList : Nat → Heap → List HVal → Option (List JVal)
  | _, _, [] => some []
  | 0, _, _ :: _ => none
  | Nat.succ fuel, h, v :: rest =>
      (match readTree fuel h v, readList fuel h rest with
       | some j, some js => some (j :: js)
       | _, _ => none)

end

theorem readTree_mono : ∀ (n : Nat) (h h2 : Heap),
    (∀ a es, heapGet h a = some es → heapGet h2 a = some es) →
    (∀ x t, readTree n h x = some t → readTree n h2 x = some t)
    ∧ (∀ es js, readEntries n h es = some js → readEntries n h2 es = some js)
    ∧ (∀ xs ys, readList n h xs = some ys → readList n h2 xs = some ys) := by
  intro n
  induction n with
  | zero =>
      intro h h2 hext
      refine ⟨?_, ?_, ?_⟩
      · intro x t hr; simp [readTree] at hr
      · intro es js hr
        cases es with
        | nil =>
            simp [readEntries] at hr
            subst hr
            simp [readEntries]
        | cons p rest => simp [readEntries] at hr
      · intro xs ys hr
        cases xs with
        | nil =>
            simp [readList] at hr
            subst hr
            simp [readList]
        | cons v rest => simp [readList] at hr
  | succ n ih =>
      intro h h2 hext
      obtain ⟨ihT, ihE, ihL⟩ := ih h h2 hext
      refine ⟨?_, ?_, ?_⟩
      · intro x t hr
        cases x with
        | hnull => simpa [readTree] using hr
        | hbool b => simpa [readTree] using hr
        | hnum m => simpa [readTree] using hr
        | hstr s => simpa [readTree] using hr
        | hlist xs =>
            cases hls : readList n h xs with
            | none =>
                rw [show readTree (Nat.succ n) h (HVal.hlist xs) = none from by
                  simp [readTree, hls]] at hr
                simp at hr
            | some ys =>
                rw [show readTree (Nat.succ n) h (HVal.hlist xs) = some (JVal.vlist ys) from by
                  simp [readTree, hls]] at hr
                rw [show readTree (Nat.succ n) h2 (HVal.hlist xs) = some (JVal.vlist ys) from by
                  simp [readTree, ihL xs ys hls]]
                exact hr
        | href a =>
            cases hga : heapGet h a with
            | none =>
                rw [show readTree (Nat.succ n) h (HVal.href a) = none from by
                  simp [readTree, hga]] at hr
                simp at hr
            | some es =>
                cases hre : readEntries n h es with
                | none =>
                    rw [show readTree (Nat.succ n) h (HVal.href a) = none from by
                      simp [readTree, hga, hre]] at hr
                    simp at hr
                | some js =>
                    rw [show readTree (Nat.succ n) h (HVal.href a)
                        = some (JVal.vdict js) from by simp [readTree, hga, hre]] at hr
                    rw [show readTree (Nat.succ n) h2 (HVal.href a)
                        = some (JVal.vdict js) from by
                      simp [readTree, hext a es hga, ihE es js hre]]
                    exact hr
      · intro es js hr
        cases es with
        | nil =>
            simp [readEntries] at hr
            subst hr
            simp [readEntries]
        | cons p rest =>
            obtain ⟨k, v⟩ := p
            cases hv : readTree n h v with
            | none =>
                rw [show readEntries (Nat.succ n) h ((k, v) :: rest) = none from by
                  simp [readEntries, hv]] at hr
                simp at hr
            | some j =>
                cases hrest : readEntries n h rest with
                | none =>
                    rw [show readEntries (Nat.succ n) h ((k, v) :: rest) = none from by
                      simp [readEntries, hv, hrest]] at hr
                    simp at hr
                | some js2 =>
                    rw [show readEntries (Nat.succ n) h ((k, v) :: rest)
                        = some ((k, j) :: js2) from by simp [readEntries, hv, hrest]] at hr
                    rw [show readEntries (Nat.succ n) h2 ((k, v) :: rest)
                        = some ((k, j) :: js2) from by
                      simp [readEntries, ihT v j hv, ihE rest js2 hrest]]
                    exact hr
      · intro xs ys hr
        cases xs with
        | nil =>
            simp [readList] at hr
            subst hr
            simp [readList]
        | cons v rest =>
            cases hv : readTree n h v with
            | none =>
                rw [show readList (Nat.succ n) h (v :: rest) = none from by
                  simp [readList, hv]] at hr
                simp at hr
            | some j =>
                cases hrest : readList n h rest with
                | none =>
                    rw [show readList (Nat.succ n) h (v :: rest) = none from by
                      simp [readList, hv, hrest]] at hr
                    simp at hr
                | some js2 =>
                    rw [show readList (Nat.succ n) h (v :: rest)
                        = some (j :: js2) from by simp [readList, hv, hrest]] at hr
                    rw [show readList (Nat.succ n) h2 (v :: rest)
                        = some (j :: js2) from by
                      simp [readList, ihT v j hv, ihL rest js2 hrest]]
                    exact hr

/-- C10: a successful run of _merge_configs does not mutate any existing
object: every dict cell of the initial heap is unchanged, so the trees
denoted by base and by updates read back equal (key-by-key, to unbounded
depth) after the merge, and the returned result is a freshly allocated
dict, not an alias of an existing one. -/
theorem merge_configs_no_mutation (fuel : Nat) (h : Heap) (base upd : Nat)
    (h2 : Heap) (r : Nat) (hm : mergeH fuel h base upd = some (h2, r)) :
    (∀ a es, heapGet h a = some es → heapGet h2 a = some es)
    ∧ (∀ f t, readTree f h (HVal.href base) = some t →
        readTree f h2 (HVal.href base) = some t)
    ∧ (∀ f t, readTree f h (HVal.href upd) = some t →
        readTree f h2 (HVal.href upd) = some t)
    ∧ heapGet h r = none := by
  have hfr := (mergeH_frame_aux fuel).1 h base upd h2 r hm
  exact ⟨hfr.1,
    fun f t ht => (readTree_mono f h h2 hfr.1).1 _ t ht,
    fun f t ht => (readTree_mono f h h2 hfr.1).1 _ t ht,
    hfr.2⟩

/-- A two-object heap used to witness the no-mutation theorem. -/
def exHeap : Heap := [(0, [("a", HVal.hnum 1)]), (1, [("b", HVal.hnum 2)])]

/-- The heap after merging object 1 over object 0 (result address 2). -/
def exHeap2 : Heap :=
  [(2, [("a", HVal.hnum 1), ("b", HVal.hnum 2)]),
   (0, [("a", HVal.hnum 1)]), (1, [("b", HVal.hnum 2)])]

/-- C10 witness: after a concrete merge, the base object still reads back
as the same tree, and the result address was free before the call. -/
theorem merge_configs_no_mutation_witness :
    readTree 3 exHeap2 (HVal.href 0) = some (JVal.vdict [("a", JVal.vnum 1)])
    ∧ heapGet exHeap 2 = none := by
  have h := merge_configs_no_mutation 3 exHeap 0 1 exHeap2 2 (by rfl)
  exact ⟨h.2.1 3 (JVal.vdict [("a", JVal.vnum 1)]) (by rfl), h.2.2.2⟩
